import Mathlib

/-!
Verification of the rug-gmpmee wrapper library against its specification.

The repository wraps the GMPMEE C library (simultaneous modular exponentiation,
fixed-base modular exponentiation with a precomputation table and a process-wide
cache, and Miller-Rabin primality testing).  The Rust wrappers under `src/src`
are embedded directly; the GMPMEE C routines themselves (`gmpmee_spowm`,
`gmpmee_fpowm_init_precomp`, `gmpmee_fpowm_precomp`, `gmpmee_fpowm`,
`gmpmee_millerrabin_rs`, `gmpmee_millerrabin_safe_rs`) are not part of the
repository sources, so they are modelled from the specification's description of
their behaviour.  Arbitrary-precision integers are modelled as `Nat` (the spec
exercises only nonnegative bases, exponents and moduli), except where the spec
speaks about negative inputs (`miller_rabin` on `n < 2`), where `Int` is used.
-/

namespace RugGmpmee

/-- Size-parameter names that can fail the usize-to-i64 cast in the Rust
wrappers (`FPownError::ExponentCast` carries the offending variable's name). -/
inductive CastVar where
  | block_width
  | exponent_bitlen
deriving DecidableEq, Repr

/-- Embedding of `FPownError` from src/src/fpowm.rs. -/
inductive FPownError where
  | ExponentCast (var : CastVar)
deriving DecidableEq, Repr

/-- Embedding of `GmpMEEError` from src/src/lib.rs.  `SPowmParameters` carries
the two mismatching lengths (the Rust variant formats them into a message
string). -/
inductive GmpMEEError where
  | SPowmParameters (basesLen exponentsLen : Nat)
  | FPowmParameters (e : FPownError)
deriving DecidableEq, Repr

/-- Outcome of a call to the Rust `spowm` wrapper: a normal `Result` value, or
a Rust panic (`indexOutOfBounds` models the `bases_raw[0]` indexing panic). -/
inductive SpowmOutcome where
  | ok (value : Nat)
  | err (e : GmpMEEError)
  | indexOutOfBounds
deriving DecidableEq, Repr

/-- Modelled from the spec: `gmpmee_spowm` of the external gmpmee C library is
not under src/ (src/src/spown.rs only calls it through FFI).  The spec defines
it as `(∏ᵢ pow_mod(bases[i], exponents[i], m)) mod m`. -/
def gmpmee_spowm (bases exponents : List Nat) (modulus : Nat) : Nat :=
  (List.zipWith (fun b e => b ^ e % modulus) bases exponents).prod % modulus

/-- Embedding of `spowm` from src/src/spown.rs.  The length-mismatch check is
taken verbatim from the source.  The usize-to-i64 cast of the length cannot
fail for a real Rust slice (slice lengths are bounded by `isize::MAX`), so it
is not modelled as a failure branch.  After the length check the source reads
`let bases_ptr = bases_raw[0];` — on empty inputs this indexing panics, which
the embedding records as `indexOutOfBounds`. -/
def spowm (bases exponents : List Nat) (modulus : Nat) : SpowmOutcome :=
  if bases.length ≠ exponents.length then
    .err (.SPowmParameters bases.length exponents.length)
  else if bases.length = 0 then
    .indexOutOfBounds
  else
    .ok (gmpmee_spowm bases exponents modulus)

theorem zipWith_pow_mod (bases exponents : List Nat) (m : Nat) :
    List.zipWith (fun b e => b ^ e % m) bases exponents
      = (List.zipWith (fun b e => b ^ e) bases exponents).map (· % m) := by
  rw [List.map_zipWith]

theorem gmpmee_spowm_eq_prod_mod (bases exponents : List Nat) (m : Nat) :
    gmpmee_spowm bases exponents m
      = (List.zipWith (fun b e => b ^ e) bases exponents).prod % m := by
  rw [gmpmee_spowm, zipWith_pow_mod, ← List.prod_nat_mod]

/-- C1: for equal-length, nonempty `bases` and `exponents` and modulus `m > 1`,
`spowm` returns `Ok` of the product of the modular powers, reduced into
`[0, m)`. -/
theorem spowm_correct (bases exponents : List Nat) (m : Nat)
    (hlen : bases.length = exponents.length) (hpos : 0 < bases.length)
    (hm : 1 < m) :
    spowm bases exponents m
      = SpowmOutcome.ok ((List.zipWith (fun b e => b ^ e) bases exponents).prod % m) ∧
    (List.zipWith (fun b e => b ^ e) bases exponents).prod % m < m := by
  constructor
  · rw [spowm, if_neg (by omega), if_neg (by omega), gmpmee_spowm_eq_prod_mod]
  · exact Nat.mod_lt _ (by omega)

theorem spowm_correct_witness :
    spowm [5, 7] [3, 9] 13
      = SpowmOutcome.ok ((List.zipWith (fun b e => b ^ e) [5, 7] [3, 9]).prod % 13) ∧
    (List.zipWith (fun b e => b ^ e) [5, 7] [3, 9]).prod % 13 < 13 :=
  spowm_correct [5, 7] [3, 9] 13 (by decide) (by decide) (by decide)

/-- C4: whenever the two slices have different lengths, `spowm` returns the
`SPowmParameters` error (carrying the two lengths) and produces no partial
product — the embedding returns the error without evaluating
`gmpmee_spowm`. -/
theorem spowm_len_mismatch (bases exponents : List Nat) (m : Nat)
    (h : bases.length ≠ exponents.length) :
    spowm bases exponents m
      = SpowmOutcome.err (.SPowmParameters bases.length exponents.length) := by
  rw [spowm, if_pos h]

theorem spowm_len_mismatch_witness :
    spowm [2] [] 13 = SpowmOutcome.err (.SPowmParameters 1 0) :=
  spowm_len_mismatch [2] [] 13 (by decide)

/-- Modelled from the spec: the precomputation table of the gmpmee C library
(`gmpmee_fpowm_tab`, filled by `gmpmee_fpowm_init_precomp`, not under src/).
The spec: the table owns `w` (`block_width`), `L` (`exponent_bitlen`), the
modulus, and entries `table[block][digit] = base^(digit · 2^(block·w)) mod
modulus`.  Entries are represented as the function `tab block digit`. -/
structure FPowmTable where
  modulus : Nat
  block_width : Nat
  exponent_bitlen : Nat
  tab : Nat → Nat → Nat

/-- Modelled from the spec: the entry function that `init_precomp`/`precomp`
install for a given base, `table[block][digit] = base^(digit · 2^(block·w))
mod modulus`. -/
def precompTab (base modulus block_width : Nat) : Nat → Nat → Nat :=
  fun block digit => base ^ (digit * 2 ^ (block * block_width)) % modulus

/-- Embedding of `FPowmTable::init_precomp` from src/src/fpowm.rs: the two
usize-to-i64 casts are checked in source order (`block_width` first), then the
table is built (the table-filling itself is `gmpmee_fpowm_init_precomp`,
modelled from the spec via `precompTab`). -/
def FPowmTable.init_precomp (base modulus block_width exponent_bitlen : Nat) :
    Except GmpMEEError FPowmTable :=
  if block_width < 2 ^ 63 then
    if exponent_bitlen < 2 ^ 63 then
      .ok ⟨modulus, block_width, exponent_bitlen,
           precompTab base modulus block_width⟩
    else .error (.FPowmParameters (.ExponentCast .exponent_bitlen))
  else .error (.FPowmParameters (.ExponentCast .block_width))

/-- Embedding of `FPowmTable::precomp` from src/src/fpowm.rs; the underlying
`gmpmee_fpowm_precomp` is modelled from the spec: it recomputes all table
entries for the new base while keeping `block_width`, `exponent_bitlen` and
the modulus unchanged. -/
def FPowmTable.precomp (t : FPowmTable) (base : Nat) : FPowmTable :=
  { t with tab := precompTab base t.modulus t.block_width }

/-- Modelled from the spec: `gmpmee_fpowm` (not under src/); decompose the
exponent into `ceil(L/w)` windows of `w` bits (least significant window =
block 0) and return `∏_block table[block][window_digit(block)] mod modulus`. -/
def FPowmTable.fpowm (t : FPowmTable) (exponent : Nat) : Nat :=
  ((List.range ((t.exponent_bitlen + t.block_width - 1) / t.block_width)).map
    (fun block =>
      t.tab block (exponent / 2 ^ (block * t.block_width) % 2 ^ t.block_width))).prod
    % t.modulus

theorem prod_map_pow_eq_pow_sum (b : Nat) (f : Nat → Nat) (l : List Nat) :
    (l.map fun i => b ^ f i).prod = b ^ (l.map f).sum := by
  induction l with
  | nil => simp
  | cons x xs ih => simp [ih, pow_add]

theorem window_digit_sum (e w : Nat) (k : Nat) :
    ((List.range k).map fun i => e / 2 ^ (i * w) % 2 ^ w * 2 ^ (i * w)).sum
      = e % 2 ^ (k * w) := by
  induction k with
  | zero => simp [Nat.mod_one]
  | succ k ih =>
      rw [List.range_succ, List.map_append, List.sum_append, ih]
      have h2 : (2 : Nat) ^ ((k + 1) * w) = 2 ^ (k * w) * 2 ^ w := by
        rw [← pow_add, Nat.succ_mul]
      rw [h2, Nat.mod_mul]
      simp only [List.map_cons, List.map_nil, List.sum_cons, List.sum_nil]
      ring

theorem le_ceilDiv_mul (L w : Nat) (hw : 0 < w) :
    L ≤ (L + w - 1) / w * w := by
  have h1 := Nat.div_add_mod (L + w - 1) w
  have h2 : (L + w - 1) % w < w := Nat.mod_lt _ hw
  have h3 : w * ((L + w - 1) / w) = (L + w - 1) / w * w := Nat.mul_comm _ _
  omega

theorem fpowm_precompTab (b m w L e : Nat) (hw : 0 < w) (he : e < 2 ^ L) :
    (FPowmTable.mk m w L (precompTab b m w)).fpowm e = b ^ e % m := by
  have hK : e < 2 ^ ((L + w - 1) / w * w) := by
    calc e < 2 ^ L := he
    _ ≤ 2 ^ ((L + w - 1) / w * w) :=
        Nat.pow_le_pow_right (by omega) (le_ceilDiv_mul L w hw)
  rw [FPowmTable.fpowm]
  show ((List.range ((L + w - 1) / w)).map
      (fun block => precompTab b m w block (e / 2 ^ (block * w) % 2 ^ w))).prod % m
      = b ^ e % m
  have hmap : ((List.range ((L + w - 1) / w)).map
      (fun block => precompTab b m w block (e / 2 ^ (block * w) % 2 ^ w)))
      = ((List.range ((L + w - 1) / w)).map
          (fun block => b ^ (e / 2 ^ (block * w) % 2 ^ w * 2 ^ (block * w)))).map
          (· % m) := by
    rw [List.map_map]
    rfl
  rw [hmap, ← List.prod_nat_mod, prod_map_pow_eq_pow_sum]
  have hsum : ((List.range ((L + w - 1) / w)).map
      ((fun i => e / 2 ^ (i * w) % 2 ^ w * 2 ^ (i * w)))).sum = e := by
    rw [window_digit_sum e w ((L + w - 1) / w), Nat.mod_eq_of_lt hK]
  show b ^ (((List.range ((L + w - 1) / w)).map
      (fun i => e / 2 ^ (i * w) % 2 ^ w * 2 ^ (i * w))).sum) % m = b ^ e % m
  rw [hsum]

/-- C2: building a table with `init_precomp(b, m, w, L)` succeeds (the size
casts succeed for any in-range `w`, `L`) and `fpowm(e)` on it returns
`b^e mod m` for every exponent of bit length at most `L`.  The hypotheses
`0 < w` and the two `< 2^63` bounds come from the spec's data model
(`ExponentBlockWidth` is a positive integer; sizes must fit the platform's
exponent representation). -/
theorem init_precomp_fpowm_correct (b m w L e : Nat)
    (hw : 0 < w) (hwcast : w < 2 ^ 63) (hLcast : L < 2 ^ 63)
    (he : Nat.size e ≤ L) :
    ∃ t, FPowmTable.init_precomp b m w L = .ok t ∧ t.fpowm e = b ^ e % m := by
  refine ⟨⟨m, w, L, precompTab b m w⟩, ?_, ?_⟩
  · rw [FPowmTable.init_precomp, if_pos hwcast, if_pos hLcast]
  · exact fpowm_precompTab b m w L e hw (Nat.size_le.mp he)

theorem init_precomp_fpowm_correct_witness :
    ∃ t, FPowmTable.init_precomp 7 13 16 16 = .ok t ∧ t.fpowm 4 = 7 ^ 4 % 13 :=
  init_precomp_fpowm_correct 7 13 16 16 4 (by decide) (by decide) (by decide)
    (Nat.size_le.mpr (by decide))

/-- C6: re-basing an existing table with `precomp(b2)` keeps `block_width`,
`exponent_bitlen` (hence the table shape) and the modulus unchanged, and every
subsequent `fpowm(e)` with bit length of `e` at most `L` returns
`b2^e mod m`. -/
theorem precomp_frame (t : FPowmTable) (b2 : Nat) :
    (t.precomp b2).block_width = t.block_width ∧
    (t.precomp b2).exponent_bitlen = t.exponent_bitlen ∧
    (t.precomp b2).modulus = t.modulus ∧
    ∀ e, 0 < t.block_width → Nat.size e ≤ t.exponent_bitlen →
      (t.precomp b2).fpowm e = b2 ^ e % t.modulus := by
  obtain ⟨m, w, L, tab⟩ := t
  refine ⟨rfl, rfl, rfl, fun e hw he => ?_⟩
  exact fpowm_precompTab b2 m w L e hw (Nat.size_le.mp he)

theorem precomp_frame_witness :
    ((FPowmTable.mk 13 2 4 fun _ _ => 0).precomp 3).block_width = 2 ∧
    ((FPowmTable.mk 13 2 4 fun _ _ => 0).precomp 3).exponent_bitlen = 4 ∧
    ((FPowmTable.mk 13 2 4 fun _ _ => 0).precomp 3).modulus = 13 ∧
    ((FPowmTable.mk 13 2 4 fun _ _ => 0).precomp 3).fpowm 5 = 3 ^ 5 % 13 := by
  have h := precomp_frame (FPowmTable.mk 13 2 4 fun _ _ => 0) 3
  exact ⟨h.1, h.2.1, h.2.2.1, h.2.2.2 5 (by decide) (Nat.size_le.mpr (by decide))⟩

/-- Embedding of `FPownMTableStatic` from src/src/fpowm.rs: the value stored in
the `OnceLock` cache — the table plus the modulus and base it was built with. -/
structure FPownMTableStatic where
  table : FPowmTable
  modulus : Nat
  base : Nat

/-- State of the `CACHE_FPOWM_TABLE` `OnceLock` from src/src/fpowm.rs:
`none` before the one-time initialization, `some` afterwards.  The cache API is
embedded as explicit state passing over this type (calls are modelled as a
sequential program; concurrency is out of scope). -/
abbrev CacheState := Option FPownMTableStatic

/-- Embedding of `is_cache_initialized` from src/src/fpowm.rs. -/
def is_cache_initialized (st : CacheState) : Bool :=
  st.isSome

/-- Embedding of `cache_init_precomp` from src/src/fpowm.rs: if the cache is
already initialized, return `Ok(false)` and leave it unchanged; otherwise build
the table via `FPowmTable::init_precomp` (propagating its error) and store the
table together with clones of the modulus and base, returning `Ok(true)`. -/
def cache_init_precomp (st : CacheState)
    (base modulus block_width exponent_bitlen : Nat) :
    Except GmpMEEError Bool × CacheState :=
  if is_cache_initialized st then (.ok false, st)
  else
    match FPowmTable.init_precomp base modulus block_width exponent_bitlen with
    | .error e => (.error e, st)
    | .ok t => (.ok true, some ⟨t, modulus, base⟩)

/-- Embedding of `cache_fpown` from src/src/fpowm.rs: `None` when the cache was
never initialized, otherwise `Some` of `fpowm` on the cached table. -/
def cache_fpown (st : CacheState) (exponent : Nat) : Option Nat :=
  match st with
  | none => none
  | some cache => some (cache.table.fpowm exponent)

/-- Embedding of `cache_base_modulus` from src/src/fpowm.rs. -/
def cache_base_modulus (st : CacheState) : Option (Nat × Nat) :=
  st.map fun cache => (cache.base, cache.modulus)

/-- Sequential execution of a list of `cache_init_precomp` calls (each entry is
the argument tuple `(base, modulus, block_width, exponent_bitlen)`), collecting
the returned values and threading the cache state. -/
def runInits (st : CacheState) (calls : List (Nat × Nat × Nat × Nat)) :
    List (Except GmpMEEError Bool) × CacheState :=
  match calls with
  | [] => ([], st)
  | (b, m, w, L) :: rest =>
    let r := cache_init_precomp st b m w L
    let rs := runInits r.2 rest
    (r.1 :: rs.1, rs.2)

theorem cache_init_precomp_of_some (c : FPownMTableStatic)
    (b m w L : Nat) :
    cache_init_precomp (some c) b m w L = (.ok false, some c) := by
  rfl

theorem runInits_of_some (c : FPownMTableStatic)
    (calls : List (Nat × Nat × Nat × Nat)) :
    runInits (some c) calls = (calls.map fun _ => Except.ok false, some c) := by
  induction calls with
  | nil => rfl
  | cons x rest ih =>
      obtain ⟨b, m, w, L⟩ := x
      simp [runInits, cache_init_precomp_of_some, ih]

/-- C3: starting from the uninitialized cache, the first
`cache_init_precomp(b1, m1, w, L)` call (whose size casts succeed) returns
`Ok(true)`; every later call of any sequence of `cache_init_precomp` calls,
with any arguments, returns `Ok(false)` and leaves the cache state — hence the
cached table, base and modulus — unchanged, and `cache_base_modulus` still
reports `(b1, m1)` after the whole sequence. -/
theorem cache_init_precomp_once (b1 m1 w L : Nat)
    (rest : List (Nat × Nat × Nat × Nat))
    (hw : w < 2 ^ 63) (hL : L < 2 ^ 63) :
    (cache_init_precomp none b1 m1 w L).1 = .ok true ∧
    runInits (cache_init_precomp none b1 m1 w L).2 rest
      = (rest.map fun _ => Except.ok false, (cache_init_precomp none b1 m1 w L).2) ∧
    cache_base_modulus (runInits (cache_init_precomp none b1 m1 w L).2 rest).2
      = some (b1, m1) := by
  have hinit : FPowmTable.init_precomp b1 m1 w L
      = .ok ⟨m1, w, L, precompTab b1 m1 w⟩ := by
    rw [FPowmTable.init_precomp, if_pos hw, if_pos hL]
  have hfirst : cache_init_precomp none b1 m1 w L
      = (.ok true, some ⟨⟨m1, w, L, precompTab b1 m1 w⟩, m1, b1⟩) := by
    rw [cache_init_precomp]
    simp [is_cache_initialized, hinit]
  rw [hfirst]
  refine ⟨rfl, ?_, ?_⟩
  · exact runInits_of_some _ rest
  · rw [runInits_of_some]
    rfl

theorem cache_init_precomp_once_witness :
    (cache_init_precomp none 7 13 16 16).1 = .ok true ∧
    runInits (cache_init_precomp none 7 13 16 16).2 [(3, 5, 2, 2)]
      = ([Except.ok false], (cache_init_precomp none 7 13 16 16).2) ∧
    cache_base_modulus (runInits (cache_init_precomp none 7 13 16 16).2
        [(3, 5, 2, 2)]).2 = some (7, 13) := by
  have h := cache_init_precomp_once 7 13 16 16 [(3, 5, 2, 2)]
    (by decide) (by decide)
  exact ⟨h.1, h.2.1, h.2.2⟩

/-- C7: `cache_fpown` returns `None` exactly when the cache was never
initialized and otherwise `Some` of `fpowm` on the cached table; likewise
`cache_base_modulus` returns `None` before initialization and `Some` of the
cached base/modulus pair afterwards. -/
theorem cache_lookup_spec (st : CacheState) (e : Nat) :
    (st = none → cache_fpown st e = none ∧ cache_base_modulus st = none) ∧
    (cache_fpown st e = none → st = none) ∧
    (cache_base_modulus st = none → st = none) ∧
    ∀ c, st = some c →
      cache_fpown st e = some (c.table.fpowm e) ∧
      cache_base_modulus st = some (c.base, c.modulus) := by
  cases st with
  | none =>
      exact ⟨fun _ => ⟨rfl, rfl⟩, fun _ => rfl, fun _ => rfl,
        fun c hc => Option.noConfusion hc⟩
  | some c0 =>
      refine ⟨fun h => Option.noConfusion h, fun h => Option.noConfusion h,
        fun h => Option.noConfusion h, fun c hc => ?_⟩
      injection hc with h1
      subst h1
      exact ⟨rfl, rfl⟩

theorem cache_lookup_spec_witness :
    cache_fpown none 3 = none ∧
    cache_base_modulus none = none ∧
    cache_fpown (some ⟨⟨13, 2, 4, fun _ _ => 1⟩, 13, 7⟩) 3
      = some ((FPowmTable.mk 13 2 4 fun _ _ => 1).fpowm 3) ∧
    cache_base_modulus (some ⟨⟨13, 2, 4, fun _ _ => 1⟩, 13, 7⟩)
      = some (7, 13) := by
  have h1 := (cache_lookup_spec none 3).1 rfl
  have h2 := (cache_lookup_spec (some ⟨⟨13, 2, 4, fun _ _ => 1⟩, 13, 7⟩) 3).2.2.2
    ⟨⟨13, 2, 4, fun _ _ => 1⟩, 13, 7⟩ rfl
  exact ⟨h1.1, h1.2, h2.1, h2.2⟩

/-- C5 (code evaluated at the failing input): with both inputs empty the Rust
`spowm` panics on the out-of-bounds indexing `bases_raw[0]` instead of
returning `Ok(1 mod m)` as the spec's `n = 0` edge case states. -/
theorem spowm_empty_input_panics :
    spowm [] [] 13 = SpowmOutcome.indexOutOfBounds := by decide

/-- Number of factors of two of a natural number (`twoVal 0 = 0`). -/
def twoVal (m : Nat) : Nat :=
  if h : m = 0 then 0
  else if m % 2 = 0 then twoVal (m / 2) + 1 else 0
decreasing_by exact Nat.div_lt_self (Nat.pos_of_ne_zero h) one_lt_two

/-- Odd part of a natural number: `m = oddPart m * 2 ^ twoVal m` for `m > 0`. -/
def oddPart (m : Nat) : Nat :=
  m / 2 ^ twoVal m

/-- Modelled from the spec: one Miller-Rabin round for odd `n ≥ 5` with witness
`a`.  Writing `n - 1 = q · 2^k` with `q` odd, the round passes when
`a^q ≡ 1 (mod n)` or `a^(2^i · q) ≡ n - 1 (mod n)` for some `i < k`. -/
def millerRabinTrial (n a : Nat) : Bool :=
  let k := twoVal (n - 1)
  let q := oddPart (n - 1)
  (a ^ q % n == 1) || (List.range k).any fun i => a ^ (2 ^ i * q) % n == n - 1

/-- Modelled from the spec: `reps` independent Miller-Rabin rounds, the `i`-th
drawing its witness from the randomness stream `rand` (witnesses lie in
`[2, n - 2]`); `true` only if every round passes. -/
def mrRounds (rand : Nat → Nat) (n reps : Nat) : Bool :=
  (List.range reps).all fun i => millerRabinTrial n (2 + rand i % (n - 3))

/-- Modelled from the spec: `gmpmee_millerrabin_rs` of the gmpmee C library
(not under src/): `n < 2 → false`; `n ∈ 2, 3 → true`; even `n > 2 → false`
without consuming randomness; otherwise `reps` rounds of random-witness
Miller-Rabin. -/
def gmpmee_millerrabin_rs (rand : Nat → Nat) (n : Int) (reps : Nat) : Bool :=
  if n < 2 then false
  else if n = 2 ∨ n = 3 then true
  else if n % 2 = 0 then false
  else mrRounds rand n.toNat reps

/-- Modelled from the spec: `gmpmee_millerrabin_safe_rs` of the gmpmee C
library (not under src/): `true` iff both `n` and `(n - 1) / 2` pass the
Miller-Rabin test. -/
def gmpmee_millerrabin_safe_rs (rand : Nat → Nat) (n : Int) (reps : Nat) :
    Bool :=
  gmpmee_millerrabin_rs rand n reps
    && gmpmee_millerrabin_rs rand ((n - 1) / 2) reps

/-- Modelled from the spec: the randomness stream of `RandState::default()`
(GMP's default generator lives in the external BigInt/randomness collaborator;
only the fact that every call starts from the same default seed matters, so a
fixed concrete stream stands in for it). -/
def defaultRandSeq : Nat → Nat :=
  fun k => (1103515245 * k + 12345) % 2 ^ 31

/-- Embedding of `miller_rabin` from src/src/miller_rabin.rs: constructs a
fresh `RandState::default()` inside the call and runs the C test with it. -/
def miller_rabin (n : Int) (reps : Nat) : Bool :=
  gmpmee_millerrabin_rs defaultRandSeq n reps

/-- Embedding of `miller_rabin_safe` from src/src/miller_rabin.rs: constructs a
fresh `RandState::default()` inside the call and runs the C safe-prime test
with it. -/
def miller_rabin_safe (n : Int) (reps : Nat) : Bool :=
  gmpmee_millerrabin_safe_rs defaultRandSeq n reps

/-- Embedding of a call to the Rust `miller_rabin` viewed as an action of a
process whose ambient caller-side randomness is `amb`: the function body never
reads `amb` — it has no randomness parameter and builds its own
`RandState::default()`. -/
def miller_rabin_process (amb : Nat → Nat) (n : Int) (reps : Nat) : Bool :=
  gmpmee_millerrabin_rs defaultRandSeq n reps

/-- Embedding of a call to the Rust `miller_rabin_safe` viewed as an action of
a process whose ambient caller-side randomness is `amb`; as for
`miller_rabin_process`, the body never reads `amb`. -/
def miller_rabin_safe_process (amb : Nat → Nat) (n : Int) (reps : Nat) :
    Bool :=
  gmpmee_millerrabin_safe_rs defaultRandSeq n reps

/-- C8: for every randomness stream and every `reps`, the Miller-Rabin test
returns `false` for `n < 2`, `true` for `n = 2` and `n = 3`, and `false` for
every even `n > 2`; the Rust `miller_rabin` is this test at the default
stream. -/
theorem miller_rabin_edge_cases (rand : Nat → Nat) (reps : Nat) (n : Int) :
    (n < 2 → gmpmee_millerrabin_rs rand n reps = false) ∧
    gmpmee_millerrabin_rs rand 2 reps = true ∧
    gmpmee_millerrabin_rs rand 3 reps = true ∧
    (2 < n → n % 2 = 0 → gmpmee_millerrabin_rs rand n reps = false) ∧
    miller_rabin n reps = gmpmee_millerrabin_rs defaultRandSeq n reps := by
  refine ⟨fun h => ?_, ?_, ?_, fun h2 heven => ?_, rfl⟩
  · rw [gmpmee_millerrabin_rs, if_pos h]
  · rw [gmpmee_millerrabin_rs, if_neg (by omega), if_pos (Or.inl rfl)]
  · rw [gmpmee_millerrabin_rs, if_neg (by omega), if_pos (Or.inr rfl)]
  · rw [gmpmee_millerrabin_rs, if_neg (by omega), if_neg (by omega),
      if_pos heven]

theorem miller_rabin_edge_cases_witness :
    gmpmee_millerrabin_rs defaultRandSeq (-7) 5 = false ∧
    gmpmee_millerrabin_rs defaultRandSeq 2 5 = true ∧
    gmpmee_millerrabin_rs defaultRandSeq 3 5 = true ∧
    gmpmee_millerrabin_rs defaultRandSeq 4 5 = false := by
  have h1 := miller_rabin_edge_cases defaultRandSeq 5 (-7)
  have h2 := miller_rabin_edge_cases defaultRandSeq 5 4
  exact ⟨h1.1 (by decide), h2.2.1, h2.2.2.1, h2.2.2.2.1 (by decide) (by decide)⟩

/-- C9: `miller_rabin_safe(n, reps)` returns `true` exactly when both
`miller_rabin(n, reps)` and `miller_rabin((n - 1) / 2, reps)` return `true`. -/
theorem miller_rabin_safe_iff_both (n : Int) (reps : Nat) :
    miller_rabin_safe n reps
      = (miller_rabin n reps && miller_rabin ((n - 1) / 2) reps) := rfl

/-- C10: viewed as process actions, `miller_rabin` and `miller_rabin_safe`
neither read nor depend on any ambient randomness source — every call builds a
fresh default-seeded state internally — so the returned boolean is a function
of `(n, reps)` alone and two calls with the same arguments agree. -/
theorem miller_rabin_deterministic (n : Int) (reps : Nat)
    (amb amb2 : Nat → Nat) :
    miller_rabin_process amb n reps = miller_rabin_process amb2 n reps ∧
    miller_rabin_process amb n reps = miller_rabin n reps ∧
    miller_rabin_safe_process amb n reps
      = miller_rabin_safe_process amb2 n reps ∧
    miller_rabin_safe_process amb n reps = miller_rabin_safe n reps :=
  ⟨rfl, rfl, rfl, rfl⟩

end RugGmpmee
